import Mathlib

namespace ZigpyZboss

/-- Modelled from the spec: the single-byte synchronization marker that
begins every low-level frame header (src/zigpy_zboss/frames.py is not in
the source tree; the tests feed stray `0xFE` marker bytes). -/
def SOF : Nat := 0xFE

/-- Test used by the synchronizer scan: true when `b` is not the
synchronization marker. -/
def notSOF (b : Nat) : Bool := b != SOF

/-- One shift step of the 8-bit CRC register. -/
def crcShift (c : Nat) : Nat :=
  if 128 ≤ c then ((2 * c) % 256) ^^^ 0x31 else (2 * c) % 256

/-- Modelled from the spec: the CRC-8 update for one input byte
(src/zigpy_zboss/checksum.py is not in the source tree; the spec leaves
the exact polynomial open, so a concrete CRC-8 is fixed here). -/
def crc8Update (crc b : Nat) : Nat :=
  crcShift (crcShift (crcShift (crcShift (crcShift (crcShift (crcShift
    (crcShift ((crc ^^^ b) % 256))))))))

/-- Modelled from the spec: `crc8(bytes) -> uint8`, the pure
deterministic stateless checksum over a byte list, used both for the
header checksum and for the whole-frame frame-check value. -/
def crc8 (l : List Nat) : Nat := l.foldl crc8Update 0xFF

/-- Modelled from the spec: the content of a validated frame as
delivered upward — the header type and flag fields and the high-level
packet payload (whose first byte carries the TSN). -/
structure Frame where
  ftype : Nat
  flags : Nat
  payload : List Nat
deriving DecidableEq, Repr

/-- Modelled from the spec: `serialize(frame) -> bytes` emits the
synchronization marker, the header fields (two-byte declared payload
length, type, flags), the 8-bit header checksum computed over exactly
those four header bytes (the fixed sub-range excluding the marker and
the checksum byte itself), the payload, and the trailing frame-check
value computed over the full serialized frame, in that fixed order. -/
def Frame.serialize (f : Frame) : List Nat :=
  let L := f.payload.length
  let body := SOF :: L % 256 :: L / 256 % 256 :: f.ftype :: f.flags ::
    crc8 [L % 256, L / 256 % 256, f.ftype, f.flags] :: f.payload
  body ++ [crc8 body]

/-- A frame is validly constructed when its header fields are genuine
bytes, its payload consists of bytes, and its payload length fits the
two-byte length field. -/
def Frame.Valid (f : Frame) : Prop :=
  f.ftype < 256 ∧ f.flags < 256 ∧ f.payload.length < 65536 ∧
    ∀ b ∈ f.payload, b < 256

instance (f : Frame) : Decidable f.Valid := by
  unfold Frame.Valid; infer_instance

/-- Modelled from the spec: the frame synchronizer's buffer-advancing
loop (fuel-indexed for structural recursion; the fuel is immaterial once
it reaches the buffer length, see `extractFuel_congr`).  The machine
scans for the marker byte, discarding the bytes before it permanently;
waits when fewer than a full six-byte header is buffered; drops just the
marker byte when the header checksum fails, resuming the scan at the
very next byte; waits when the declared payload plus the frame-check
byte are not yet buffered; and once the candidate is complete either
emits the frame (frame-check matches) or silently discards the whole
candidate (frame-check fails), continuing over the remaining bytes. -/
def extractFuel : Nat → List Nat → List Frame × List Nat
  | 0, buf => ([], buf)
  | fuel + 1, buf =>
    let b := buf.dropWhile notSOF
    if b.length < 6 then ([], b)
    else
      let l1 := b.getD 1 0
      let l2 := b.getD 2 0
      let L := l1 + 256 * l2
      if crc8 [l1, l2, b.getD 3 0, b.getD 4 0] = b.getD 5 0 then
        if b.length < 6 + L + 1 then ([], b)
        else if crc8 (b.take (6 + L)) = b.getD (6 + L) 0 then
          let p := extractFuel fuel (b.drop (6 + L + 1))
          (⟨b.getD 3 0, b.getD 4 0, (b.drop 6).take L⟩ :: p.1, p.2)
        else extractFuel fuel (b.drop (6 + L + 1))
      else extractFuel fuel b.tail

/-- Advance the frame synchronizer as far as the buffer allows:
the frames emitted in order, together with the unconsumed buffer. -/
def extract (buf : List Nat) : List Frame × List Nat :=
  extractFuel buf.length buf

/-- Modelled from the spec: the state of the `ZbossNcpProtocol` frame
synchronizer — the byte-stream buffer of bytes not yet resolved into a
frame boundary (src/zigpy_zboss/uart.py is not in the source tree). -/
structure ZbossNcpProtocol where
  buffer : List Nat
deriving DecidableEq, Repr

/-- Modelled from the spec: `ZbossNcpProtocol.data_received` appends the
delivered chunk to the buffer, advances the frame synchronizer as far as
the buffer allows, and hands each completed validated frame upward (to
the api object's `frame_received`).  Returns the emitted frames in order
together with the successor state. -/
def ZbossNcpProtocol.data_received (s : ZbossNcpProtocol)
    (chunk : List Nat) : List Frame × ZbossNcpProtocol :=
  ((extract (s.buffer ++ chunk)).1, ⟨(extract (s.buffer ++ chunk)).2⟩)

/-- One step of feeding a chunk: accumulate the frames emitted so far. -/
def rxStep (acc : List Frame × ZbossNcpProtocol) (ch : List Nat) :
    List Frame × ZbossNcpProtocol :=
  (acc.1 ++ (acc.2.data_received ch).1, (acc.2.data_received ch).2)

/-- Feed a list of chunks one `data_received` call per chunk, collecting
every frame handed upward across all the calls. -/
def ZbossNcpProtocol.feed (s : ZbossNcpProtocol)
    (chunks : List (List Nat)) : List Frame × ZbossNcpProtocol :=
  chunks.foldl rxStep ([], s)

/-- Modelled from the spec: the delivery loop inside `data_received`
invokes the api object's `frame_received` callback once per extracted
frame, catching any exception the callback raises (it is logged and
swallowed), so a failing callback does not stop delivery of the
remaining frames.  Returns the frames the callback was invoked on, in
invocation order. -/
def frameReceivedLoop (handler : Frame → Except String Unit) :
    List Frame → List Frame
  | [] => []
  | f :: fs =>
    match handler f with
    | Except.ok _ => f :: frameReceivedLoop handler fs
    | Except.error _ => f :: frameReceivedLoop handler fs

/-- Modelled from the spec: the codec-level strict parser for exactly one
frame: checks the synchronization marker, the header checksum over the
four header bytes, that the declared payload plus the frame-check byte
are exactly present, and the frame-check value over the whole frame;
returns the frame on success and nothing on any mismatch. -/
def parseFrame (bs : List Nat) : Option Frame :=
  match bs with
  | m :: l1 :: l2 :: ty :: fl :: cr :: rest =>
    if m = SOF ∧ crc8 [l1, l2, ty, fl] = cr ∧
        rest.length = (l1 + 256 * l2) + 1 ∧
        crc8 (m :: l1 :: l2 :: ty :: fl :: cr ::
          rest.take (l1 + 256 * l2)) = rest.getD (l1 + 256 * l2) 0 then
      some ⟨ty, fl, rest.take (l1 + 256 * l2)⟩
    else none
  | _ => none

/-- The method `ControllerApplication.get_sequence` from
src/zigpy_zboss/zigbee/application.py: increments the stored
`_send_sequence` counter modulo 255 (TSN 255 is reserved by the NCP
protocol and never used) and returns the new value.  The pair is
(returned TSN, new stored counter). -/
def get_sequence (send_sequence : Nat) : Nat × Nat :=
  ((send_sequence + 1) % 255, (send_sequence + 1) % 255)

/-- The status reduction in `NrfZDO.Bind_req` from
src/zigpy_zboss/zigbee/device.py: a response with non-zero `StatusCode`
yields `StatusCode % 0xFF`, a zero one yields `zdo_t.Status.SUCCESS`
(numerically 0). -/
def Bind_req_status (statusCode : Nat) : Nat :=
  if statusCode ≠ 0 then statusCode % 0xFF else 0

/-- The status reduction in `NrfZDO.Unbind_req` from
src/zigpy_zboss/zigbee/device.py, identical to the one in
`NrfZDO.Bind_req`. -/
def Unbind_req_status (statusCode : Nat) : Nat :=
  if statusCode ≠ 0 then statusCode % 0xFF else 0

/-- Events observable on the concurrency-limiting permit pool while
`ControllerApplication.send_packet` runs. -/
inductive SendEvent
  | acquirePermit
  | sendAttempt (n : Nat)
  | releasePermit
deriving DecidableEq, Repr

/-- The application state visible to `send_packet`: the api handle is
`none` exactly when the coordinator is disconnected. -/
structure AppState where
  api : Option Unit
deriving DecidableEq, Repr

/-- The method `ControllerApplication.send_packet` from
src/zigpy_zboss/zigbee/application.py, as an event trace over the permit
pool: if the api handle is `None` it raises `DeliveryError` before
touching the permit pool or sending anything; otherwise it acquires the
permit, performs every send attempt (the initial try and all its
retries, modelled from the spec since the api layer is not in the source
tree), and releases the permit only after the final attempt. -/
def send_packet (st : AppState) (attempts : Nat) :
    Except String Unit × List SendEvent × AppState :=
  match st.api with
  | none =>
    (Except.error "Coordinator is disconnected, cannot send request",
      [], st)
  | some _ =>
    (Except.ok (), SendEvent.acquirePermit ::
      ((List.range attempts).map SendEvent.sendAttempt ++
        [SendEvent.releasePermit]), st)

/-- The outcome delivered to a pending request when the connection is
severed. -/
inductive ReqOutcome
  | connectionLost (exc : Nat)
deriving DecidableEq, Repr

/-- Modelled from the spec: the transaction multiplexer state of the
`NRF` api object (src/zigpy_zboss/api.py is not in the source tree) —
the sequence numbers of still-pending requests and whether the
connection has been severed. -/
structure Nrf where
  pending : List Nat
  closed : Bool
deriving DecidableEq, Repr

/-- Modelled from the spec: `connection_lost` — when the transport
reports a severed connection with a causing exception, every
still-pending request is failed with a `ConnectionLost` outcome, the
owner's connection-lost callback is invoked exactly once with that same
exception, and the multiplexer processes no further frames.  Returns
(new state, failures delivered to the pending requests, arguments of the
owner-callback invocations). -/
def connection_lost (exc : Nat) (m : Nrf) :
    Nrf × List (Nat × ReqOutcome) × List Nat :=
  (⟨[], true⟩,
    m.pending.map (fun tsn => (tsn, ReqOutcome.connectionLost exc)),
    [exc])

/-- Modelled from the spec: inbound frame dispatch of the multiplexer —
once the connection is severed no inbound frame is processed or
delivered. -/
def Nrf.frame_received (m : Nrf) (f : Frame) : Nrf × List Frame :=
  if m.closed then (m, []) else (m, [f])

/-- A small concrete valid frame, mirroring the request frame the uart
tests build (a three-byte payload whose first byte is the TSN 10). -/
def testFrame : Frame := ⟨1, 0, [10, 2, 0]⟩

theorem extractFuel_congr :
    ∀ f1 f2 buf, buf.length ≤ f1 → buf.length ≤ f2 →
      extractFuel f1 buf = extractFuel f2 buf := by
  intro f1
  induction f1 with
  | zero =>
    intro f2 buf h1 h2
    have hb : buf = [] := List.length_eq_zero.mp (Nat.le_zero.mp h1)
    subst hb
    cases f2 with
    | zero => rfl
    | succ k => simp [extractFuel]
  | succ f ih =>
    intro f2 buf h1 h2
    cases f2 with
    | zero =>
      have hb : buf = [] := List.length_eq_zero.mp (Nat.le_zero.mp h2)
      subst hb
      simp [extractFuel]
    | succ k =>
      have hdl : (buf.dropWhile notSOF).length ≤ buf.length :=
        (List.dropWhile_sublist notSOF).length_le
      simp only [extractFuel]
      split
      · rfl
      · rename_i hlen
        split
        · split
          · rfl
          · rename_i hcomplete
            split
            · rw [ih k ((buf.dropWhile notSOF).drop
                (6 + ((buf.dropWhile notSOF).getD 1 0 +
                  256 * (buf.dropWhile notSOF).getD 2 0) + 1))
                (by simp only [List.length_drop]; omega)
                (by simp only [List.length_drop]; omega)]
            · exact ih k _
                (by simp only [List.length_drop]; omega)
                (by simp only [List.length_drop]; omega)
        · exact ih k _
            (by simp only [List.length_tail]; omega)
            (by simp only [List.length_tail]; omega)

theorem take_append_of_le {α : Type} :
    ∀ (n : Nat) (l₁ l₂ : List α), n ≤ l₁.length →
      (l₁ ++ l₂).take n = l₁.take n := by
  intro n l₁
  induction l₁ generalizing n with
  | nil =>
    intro l₂ h
    simp_all
  | cons x xs ih =>
    intro l₂ h
    cases n with
    | zero => simp
    | succ k =>
      simp only [List.cons_append, List.take_succ_cons, List.cons.injEq,
        true_and]
      exact ih k l₂ (by simpa using h)

theorem drop_append_of_le {α : Type} :
    ∀ (n : Nat) (l₁ l₂ : List α), n ≤ l₁.length →
      (l₁ ++ l₂).drop n = l₁.drop n ++ l₂ := by
  intro n l₁
  induction l₁ generalizing n with
  | nil =>
    intro l₂ h
    simp_all
  | cons x xs ih =>
    intro l₂ h
    cases n with
    | zero => simp
    | succ k =>
      simp only [List.cons_append, List.drop_succ_cons]
      exact ih k l₂ (by simpa using h)

theorem extract_eq (buf : List Nat) :
    extract buf =
      (let b := buf.dropWhile notSOF
      if b.length < 6 then ([], b)
      else
        let L := b.getD 1 0 + 256 * b.getD 2 0
        if crc8 [b.getD 1 0, b.getD 2 0, b.getD 3 0, b.getD 4 0] =
            b.getD 5 0 then
          if b.length < 6 + L + 1 then ([], b)
          else if crc8 (b.take (6 + L)) = b.getD (6 + L) 0 then
            (⟨b.getD 3 0, b.getD 4 0, (b.drop 6).take L⟩ ::
                (extract (b.drop (6 + L + 1))).1,
              (extract (b.drop (6 + L + 1))).2)
          else extract (b.drop (6 + L + 1))
        else extract b.tail) := by
  cases buf with
  | nil => rfl
  | cons x xs =>
    have hdl : ((x :: xs).dropWhile notSOF).length ≤ xs.length + 1 := by
      have h9 : ((x :: xs).dropWhile notSOF).length ≤ (x :: xs).length :=
        (List.dropWhile_sublist notSOF).length_le
      simpa using h9
    show extractFuel (x :: xs).length (x :: xs) = _
    simp only [List.length_cons, extractFuel, extract]
    split
    · rfl
    · rename_i hlen
      split
      · split
        · rfl
        · rename_i hcomplete
          split
          · rw [extractFuel_congr xs.length _ _
              (by simp only [List.length_drop]; omega)
              (le_refl _)]
          · exact extractFuel_congr xs.length _ _
              (by simp only [List.length_drop]; omega)
              (le_refl _)
      · exact extractFuel_congr xs.length _ _
          (by simp only [List.length_tail]; omega)
          (le_refl _)

theorem extract_short {buf b : List Nat} (hb : buf.dropWhile notSOF = b)
    (h : b.length < 6) : extract buf = ([], b) := by
  rw [extract_eq buf, hb]
  dsimp only
  rw [if_pos h]

theorem extract_crcfail {buf b : List Nat} (hb : buf.dropWhile notSOF = b)
    (h6 : ¬ b.length < 6)
    (hcrc : ¬ crc8 [b.getD 1 0, b.getD 2 0, b.getD 3 0, b.getD 4 0] =
      b.getD 5 0) :
    extract buf = extract b.tail := by
  rw [extract_eq buf, hb]
  dsimp only
  rw [if_neg h6, if_neg hcrc]

theorem extract_blocked {buf b : List Nat} (hb : buf.dropWhile notSOF = b)
    (h6 : ¬ b.length < 6)
    (hcrc : crc8 [b.getD 1 0, b.getD 2 0, b.getD 3 0, b.getD 4 0] =
      b.getD 5 0)
    (h3 : b.length < 6 + (b.getD 1 0 + 256 * b.getD 2 0) + 1) :
    extract buf = ([], b) := by
  rw [extract_eq buf, hb]
  dsimp only
  rw [if_neg h6, if_pos hcrc, if_pos h3]

theorem extract_emit {buf b : List Nat} (hb : buf.dropWhile notSOF = b)
    (h6 : ¬ b.length < 6)
    (hcrc : crc8 [b.getD 1 0, b.getD 2 0, b.getD 3 0, b.getD 4 0] =
      b.getD 5 0)
    (h3 : ¬ b.length < 6 + (b.getD 1 0 + 256 * b.getD 2 0) + 1)
    (h4 : crc8 (b.take (6 + (b.getD 1 0 + 256 * b.getD 2 0))) =
      b.getD (6 + (b.getD 1 0 + 256 * b.getD 2 0)) 0) :
    extract buf =
      (⟨b.getD 3 0, b.getD 4 0,
          (b.drop 6).take (b.getD 1 0 + 256 * b.getD 2 0)⟩ ::
        (extract (b.drop (6 + (b.getD 1 0 + 256 * b.getD 2 0) + 1))).1,
        (extract (b.drop (6 + (b.getD 1 0 + 256 * b.getD 2 0) + 1))).2) := by
  rw [extract_eq buf, hb]
  dsimp only
  rw [if_neg h6, if_pos hcrc, if_neg h3, if_pos h4]

theorem extract_discard {buf b : List Nat} (hb : buf.dropWhile notSOF = b)
    (h6 : ¬ b.length < 6)
    (hcrc : crc8 [b.getD 1 0, b.getD 2 0, b.getD 3 0, b.getD 4 0] =
      b.getD 5 0)
    (h3 : ¬ b.length < 6 + (b.getD 1 0 + 256 * b.getD 2 0) + 1)
    (h4 : ¬ crc8 (b.take (6 + (b.getD 1 0 + 256 * b.getD 2 0))) =
      b.getD (6 + (b.getD 1 0 + 256 * b.getD 2 0)) 0) :
    extract buf =
      extract (b.drop (6 + (b.getD 1 0 + 256 * b.getD 2 0) + 1)) := by
  rw [extract_eq buf, hb]
  dsimp only
  rw [if_neg h6, if_pos hcrc, if_neg h3, if_neg h4]

theorem dropWhile_append_self {buf more : List Nat}
    (h : buf.dropWhile notSOF ≠ []) :
    (buf.dropWhile notSOF ++ more).dropWhile notSOF =
      buf.dropWhile notSOF ++ more := by
  obtain ⟨hd, tl, he⟩ := List.exists_cons_of_ne_nil h
  have h0 := List.head?_dropWhile_not notSOF buf
  rw [he] at h0
  simp only [List.head?_cons] at h0
  rw [he]
  simp [List.dropWhile_cons, h0]

theorem dropWhile_append_left {buf more : List Nat}
    (h : buf.dropWhile notSOF ≠ []) :
    (buf ++ more).dropWhile notSOF = buf.dropWhile notSOF ++ more := by
  rw [List.dropWhile_append]
  simp [List.isEmpty_iff, h]

theorem extract_congr_of_dropWhile {buf₁ buf₂ : List Nat}
    (h : buf₁.dropWhile notSOF = buf₂.dropWhile notSOF) :
    extract buf₁ = extract buf₂ := by
  rw [extract_eq buf₁, extract_eq buf₂, h]

theorem extract_append_aux :
    ∀ (n : Nat) (buf more : List Nat), buf.length ≤ n →
      extract (buf ++ more) =
        ((extract buf).1 ++ (extract ((extract buf).2 ++ more)).1,
          (extract ((extract buf).2 ++ more)).2) := by
  intro n
  induction n with
  | zero =>
    intro buf more h
    have hbuf : buf = [] := List.length_eq_zero.mp (Nat.le_zero.mp h)
    subst hbuf
    have h0 : extract ([] : List Nat) = ([], []) := rfl
    simp [h0]
  | succ k ih =>
    intro buf more h
    have hdl : (buf.dropWhile notSOF).length ≤ buf.length :=
      (List.dropWhile_sublist notSOF).length_le
    by_cases hnil : buf.dropWhile notSOF = []
    · have hall : ∀ x ∈ buf, notSOF x := List.dropWhile_eq_nil_iff.mp hnil
      have h1 : extract buf = ([], []) := extract_short hnil (by simp)
      have h2 : extract (buf ++ more) = extract more :=
        extract_congr_of_dropWhile (List.dropWhile_append_of_pos hall)
      rw [h2, h1]
      simp
    · generalize hb : buf.dropWhile notSOF = b at hdl hnil
      have hself : (b ++ more).dropWhile notSOF = b ++ more := by
        rw [← hb]
        exact dropWhile_append_self (hb ▸ hnil)
      have hcongr : extract (buf ++ more) = extract (b ++ more) := by
        refine extract_congr_of_dropWhile ?_
        rw [dropWhile_append_left (hb ▸ hnil), hb, hself]
      by_cases h6 : b.length < 6
      · have h1 : extract buf = ([], b) := extract_short hb h6
        rw [hcongr, h1]
        simp
      · have h6m : ¬ (b ++ more).length < 6 := by
          simp only [List.length_append]
          omega
        have hg1 : (b ++ more).getD 1 0 = b.getD 1 0 :=
          List.getD_append _ _ _ _ (by omega)
        have hg2 : (b ++ more).getD 2 0 = b.getD 2 0 :=
          List.getD_append _ _ _ _ (by omega)
        have hg3 : (b ++ more).getD 3 0 = b.getD 3 0 :=
          List.getD_append _ _ _ _ (by omega)
        have hg4 : (b ++ more).getD 4 0 = b.getD 4 0 :=
          List.getD_append _ _ _ _ (by omega)
        have hg5 : (b ++ more).getD 5 0 = b.getD 5 0 :=
          List.getD_append _ _ _ _ (by omega)
        by_cases hcrc : crc8 [b.getD 1 0, b.getD 2 0, b.getD 3 0,
            b.getD 4 0] = b.getD 5 0
        · by_cases h3 : b.length < 6 + (b.getD 1 0 + 256 * b.getD 2 0) + 1
          · have h1 : extract buf = ([], b) := extract_blocked hb h6 hcrc h3
            rw [hcongr, h1]
            simp
          · have hcrcm : crc8 [(b ++ more).getD 1 0, (b ++ more).getD 2 0,
                (b ++ more).getD 3 0, (b ++ more).getD 4 0] =
                (b ++ more).getD 5 0 := by
              rw [hg1, hg2, hg3, hg4, hg5]
              exact hcrc
            have h3m : ¬ (b ++ more).length < 6 + ((b ++ more).getD 1 0 +
                256 * (b ++ more).getD 2 0) + 1 := by
              rw [hg1, hg2]
              simp only [List.length_append]
              omega
            have hg6L : (b ++ more).getD
                (6 + (b.getD 1 0 + 256 * b.getD 2 0)) 0 =
                b.getD (6 + (b.getD 1 0 + 256 * b.getD 2 0)) 0 :=
              List.getD_append _ _ _ _ (by omega)
            have ht6L : (b ++ more).take
                (6 + (b.getD 1 0 + 256 * b.getD 2 0)) =
                b.take (6 + (b.getD 1 0 + 256 * b.getD 2 0)) :=
              take_append_of_le _ _ _ (by omega)
            have hd6 : (b ++ more).drop 6 = b.drop 6 ++ more :=
              drop_append_of_le _ _ _ (by omega)
            have htL : (b.drop 6 ++ more).take
                (b.getD 1 0 + 256 * b.getD 2 0) =
                (b.drop 6).take (b.getD 1 0 + 256 * b.getD 2 0) :=
              take_append_of_le _ _ _
                (by simp only [List.length_drop]; omega)
            have hdL : (b ++ more).drop
                (6 + (b.getD 1 0 + 256 * b.getD 2 0) + 1) =
                b.drop (6 + (b.getD 1 0 + 256 * b.getD 2 0) + 1) ++ more :=
              drop_append_of_le _ _ _ (by omega)
            have ihd := ih
              (b.drop (6 + (b.getD 1 0 + 256 * b.getD 2 0) + 1)) more
              (by simp only [List.length_drop]; omega)
            by_cases h4 : crc8 (b.take (6 + (b.getD 1 0 + 256 * b.getD 2 0)))
                = b.getD (6 + (b.getD 1 0 + 256 * b.getD 2 0)) 0
            · have h4m : crc8 ((b ++ more).take (6 + ((b ++ more).getD 1 0 +
                  256 * (b ++ more).getD 2 0))) =
                  (b ++ more).getD (6 + ((b ++ more).getD 1 0 +
                    256 * (b ++ more).getD 2 0)) 0 := by
                rw [hg1, hg2, ht6L, hg6L]
                exact h4
              have h1 := extract_emit hb h6 hcrc h3 h4
              have h2 := extract_emit hself h6m hcrcm h3m h4m
              rw [hg1, hg2, hg3, hg4, hd6, htL, hdL, ihd] at h2
              rw [hcongr, h2, h1]
              simp
            · have h4m : ¬ crc8 ((b ++ more).take (6 + ((b ++ more).getD 1 0
                  + 256 * (b ++ more).getD 2 0))) =
                  (b ++ more).getD (6 + ((b ++ more).getD 1 0 +
                    256 * (b ++ more).getD 2 0)) 0 := by
                rw [hg1, hg2, ht6L, hg6L]
                exact h4
              have h1 := extract_discard hb h6 hcrc h3 h4
              have h2 := extract_discard hself h6m hcrcm h3m h4m
              rw [hg1, hg2, hdL, ihd] at h2
              rw [hcongr, h2, h1]
        · have hcrcm : ¬ crc8 [(b ++ more).getD 1 0, (b ++ more).getD 2 0,
              (b ++ more).getD 3 0, (b ++ more).getD 4 0] =
              (b ++ more).getD 5 0 := by
            rw [hg1, hg2, hg3, hg4, hg5]
            exact hcrc
          have h1 : extract buf = extract b.tail :=
            extract_crcfail hb h6 hcrc
          have h2 : extract (b ++ more) = extract ((b ++ more).tail) :=
            extract_crcfail hself h6m hcrcm
          have h3 : (b ++ more).tail = b.tail ++ more :=
            List.tail_append_of_ne_nil hnil
          have iht := ih b.tail more
            (by simp only [List.length_tail]; omega)
          rw [hcongr, h2, h3, iht, h1]

theorem extract_append (buf more : List Nat) :
    extract (buf ++ more) =
      ((extract buf).1 ++ (extract ((extract buf).2 ++ more)).1,
        (extract ((extract buf).2 ++ more)).2) :=
  extract_append_aux buf.length buf more (le_refl _)

theorem take_six {α : Type} (n : Nat) (x0 x1 x2 x3 x4 x5 : α)
    (r : List α) :
    (x0 :: x1 :: x2 :: x3 :: x4 :: x5 :: r).take (6 + n) =
      x0 :: x1 :: x2 :: x3 :: x4 :: x5 :: r.take n := by
  rw [show 6 + n = n + 1 + 1 + 1 + 1 + 1 + 1 from by omega]
  simp [List.take_succ_cons]

theorem drop_six {α : Type} (n : Nat) (x0 x1 x2 x3 x4 x5 : α)
    (r : List α) :
    (x0 :: x1 :: x2 :: x3 :: x4 :: x5 :: r).drop (6 + n) = r.drop n := by
  rw [show 6 + n = n + 1 + 1 + 1 + 1 + 1 + 1 from by omega]
  simp [List.drop_succ_cons]

theorem getD_six (n : Nat) (x0 x1 x2 x3 x4 x5 : Nat) (r : List Nat) :
    (x0 :: x1 :: x2 :: x3 :: x4 :: x5 :: r).getD (6 + n) 0 =
      r.getD n 0 := by
  rw [show 6 + n = n + 1 + 1 + 1 + 1 + 1 + 1 from by omega]
  simp [List.getD_cons_succ]

theorem extract_frame_front (l1 l2 ty fl : Nat) (P t : List Nat)
    (hL : l1 + 256 * l2 = P.length) :
    extract (SOF :: l1 :: l2 :: ty :: fl :: crc8 [l1, l2, ty, fl] ::
        (P ++ (crc8 (SOF :: l1 :: l2 :: ty :: fl ::
          crc8 [l1, l2, ty, fl] :: P) :: t))) =
      (⟨ty, fl, P⟩ :: (extract t).1, (extract t).2) := by
  set cr := crc8 [l1, l2, ty, fl] with hcr
  set fcs := crc8 (SOF :: l1 :: l2 :: ty :: fl :: cr :: P) with hfcs
  set b := SOF :: l1 :: l2 :: ty :: fl :: cr :: (P ++ (fcs :: t))
    with hbdef
  have hb : b.dropWhile notSOF = b := by
    rw [hbdef]
    exact List.dropWhile_cons_of_neg (by decide)
  have hlenb : b.length = 6 + P.length + 1 + t.length := by
    rw [hbdef]
    simp [List.length_append]
    omega
  have g1 : b.getD 1 0 = l1 := by rw [hbdef]; simp
  have g2 : b.getD 2 0 = l2 := by rw [hbdef]; simp
  have g3 : b.getD 3 0 = ty := by rw [hbdef]; simp
  have g4 : b.getD 4 0 = fl := by rw [hbdef]; simp
  have g5 : b.getD 5 0 = cr := by rw [hbdef]; simp
  have hLval : b.getD 1 0 + 256 * b.getD 2 0 = P.length := by
    rw [g1, g2]
    exact hL
  have h6 : ¬ b.length < 6 := by omega
  have hcrc : crc8 [b.getD 1 0, b.getD 2 0, b.getD 3 0, b.getD 4 0] =
      b.getD 5 0 := by
    rw [g1, g2, g3, g4, g5]
  have h3 : ¬ b.length < 6 + (b.getD 1 0 + 256 * b.getD 2 0) + 1 := by
    rw [hLval]
    omega
  have htake : b.take (6 + P.length) =
      SOF :: l1 :: l2 :: ty :: fl :: cr :: P := by
    rw [hbdef, take_six]
    rw [List.take_left' rfl]
  have hgfcs : b.getD (6 + P.length) 0 = fcs := by
    rw [hbdef, getD_six]
    rw [List.getD_append_right _ _ _ _ (le_refl _)]
    simp
  have h4 : crc8 (b.take (6 + (b.getD 1 0 + 256 * b.getD 2 0))) =
      b.getD (6 + (b.getD 1 0 + 256 * b.getD 2 0)) 0 := by
    rw [hLval, htake, hgfcs]
  have hdrop6 : b.drop 6 = P ++ (fcs :: t) := by
    rw [hbdef]
    rfl
  have hpay : (b.drop 6).take (b.getD 1 0 + 256 * b.getD 2 0) = P := by
    rw [hdrop6, hLval]
    exact List.take_left' rfl
  have hrest : b.drop (6 + (b.getD 1 0 + 256 * b.getD 2 0) + 1) = t := by
    rw [hLval, show 6 + P.length + 1 = 6 + (P.length + 1) from by omega,
      hbdef, drop_six]
    rw [show P ++ (fcs :: t) = (P ++ [fcs]) ++ t from by simp]
    exact List.drop_left' (by simp)
  rw [extract_emit hb h6 hcrc h3 h4, g3, g4, hpay, hrest]

theorem frame_eta (f : Frame) :
    (⟨f.ftype, f.flags, f.payload⟩ : Frame) = f := rfl

theorem extract_serialize_append (f : Frame) (hf : f.Valid)
    (t : List Nat) :
    extract (f.serialize ++ t) = (f :: (extract t).1, (extract t).2) := by
  obtain ⟨hty, hfl, hlen, hbytes⟩ := hf
  have hshape : f.serialize ++ t =
      SOF :: (f.payload.length % 256) :: (f.payload.length / 256 % 256) ::
        f.ftype :: f.flags ::
        crc8 [f.payload.length % 256, f.payload.length / 256 % 256,
          f.ftype, f.flags] ::
        (f.payload ++ (crc8 (SOF :: (f.payload.length % 256) ::
          (f.payload.length / 256 % 256) :: f.ftype :: f.flags ::
          crc8 [f.payload.length % 256, f.payload.length / 256 % 256,
            f.ftype, f.flags] :: f.payload) :: t)) := by
    simp [Frame.serialize, List.append_assoc]
  rw [hshape, extract_frame_front _ _ _ _ _ _ (by omega), frame_eta]

theorem extract_serialize (f : Frame) (hf : f.Valid) :
    extract f.serialize = ([f], []) := by
  have h := extract_serialize_append f hf []
  simpa using h

theorem dropWhile_idem (buf : List Nat) :
    (buf.dropWhile notSOF).dropWhile notSOF = buf.dropWhile notSOF := by
  by_cases h : buf.dropWhile notSOF = []
  · rw [h]
    rfl
  · have h9 : (buf.dropWhile notSOF ++ []).dropWhile notSOF =
        buf.dropWhile notSOF ++ [] := dropWhile_append_self h
    simpa using h9

theorem extract_leftover_aux :
    ∀ (n : Nat) (buf : List Nat), buf.length ≤ n →
      extract (extract buf).2 = ([], (extract buf).2) := by
  intro n
  induction n with
  | zero =>
    intro buf h
    have hbuf : buf = [] := List.length_eq_zero.mp (Nat.le_zero.mp h)
    subst hbuf
    rfl
  | succ k ih =>
    intro buf h
    have hdl : (buf.dropWhile notSOF).length ≤ buf.length :=
      (List.dropWhile_sublist notSOF).length_le
    by_cases hnil : buf.dropWhile notSOF = []
    · rw [extract_short hnil (by simp)]
      rfl
    · generalize hb : buf.dropWhile notSOF = b at hdl hnil
      have hbb : b.dropWhile notSOF = b := by
        rw [← hb]
        exact dropWhile_idem buf
      by_cases h6 : b.length < 6
      · rw [extract_short hb h6]
        exact extract_short hbb h6
      · by_cases hcrc : crc8 [b.getD 1 0, b.getD 2 0, b.getD 3 0,
            b.getD 4 0] = b.getD 5 0
        · by_cases h3 : b.length < 6 + (b.getD 1 0 + 256 * b.getD 2 0) + 1
          · rw [extract_blocked hb h6 hcrc h3]
            exact extract_blocked hbb h6 hcrc h3
          · by_cases h4 : crc8 (b.take (6 + (b.getD 1 0 +
                256 * b.getD 2 0))) =
                b.getD (6 + (b.getD 1 0 + 256 * b.getD 2 0)) 0
            · rw [extract_emit hb h6 hcrc h3 h4]
              exact ih _ (by simp only [List.length_drop]; omega)
            · rw [extract_discard hb h6 hcrc h3 h4]
              exact ih _ (by simp only [List.length_drop]; omega)
        · rw [extract_crcfail hb h6 hcrc]
          exact ih _ (by simp only [List.length_tail]; omega)

theorem extract_leftover (buf : List Nat) :
    extract (extract buf).2 = ([], (extract buf).2) :=
  extract_leftover_aux buf.length buf (le_refl _)

theorem foldl_rxStep :
    ∀ (chunks : List (List Nat)) (fs : List Frame) (buf : List Nat),
      extract buf = ([], buf) →
      List.foldl rxStep (fs, ⟨buf⟩) chunks =
        (fs ++ (extract (buf ++ chunks.flatten)).1,
          ⟨(extract (buf ++ chunks.flatten)).2⟩) := by
  intro chunks
  induction chunks with
  | nil =>
    intro fs buf h
    simp [List.foldl_nil, List.flatten, h]
  | cons c cs ih =>
    intro fs buf h
    simp only [List.foldl_cons, List.flatten_cons]
    rw [show rxStep (fs, ⟨buf⟩) c =
      (fs ++ (extract (buf ++ c)).1, ⟨(extract (buf ++ c)).2⟩) from rfl]
    rw [ih _ _ (extract_leftover (buf ++ c))]
    rw [show buf ++ (c ++ cs.flatten) = (buf ++ c) ++ cs.flatten from
      (List.append_assoc _ _ _).symm]
    rw [extract_append (buf ++ c) cs.flatten]
    simp [List.append_assoc]

theorem feed_eq_extract_join (chunks : List (List Nat)) :
    (ZbossNcpProtocol.mk []).feed chunks =
      ((extract chunks.flatten).1, ⟨(extract chunks.flatten).2⟩) := by
  have h := foldl_rxStep chunks [] [] rfl
  simpa [ZbossNcpProtocol.feed] using h

theorem join_map_singleton (l : List Nat) :
    (l.map (fun b => [b])).flatten = l := by
  induction l with
  | nil => rfl
  | cons x xs ih => simp [ih]

theorem frameReceivedLoop_all (handler : Frame → Except String Unit) :
    ∀ fs : List Frame, frameReceivedLoop handler fs = fs := by
  intro fs
  induction fs with
  | nil => rfl
  | cons f fs ih =>
    unfold frameReceivedLoop
    cases handler f <;> rw [ih]

theorem extract_truncated (l1 l2 ty fl : Nat) (P : List Nat)
    (hL : l1 + 256 * l2 = P.length) :
    extract (SOF :: l1 :: l2 :: ty :: fl :: crc8 [l1, l2, ty, fl] :: P) =
      ([], SOF :: l1 :: l2 :: ty :: fl :: crc8 [l1, l2, ty, fl] :: P) := by
  set cr := crc8 [l1, l2, ty, fl] with hcr
  set b := SOF :: l1 :: l2 :: ty :: fl :: cr :: P with hbdef
  have hb : b.dropWhile notSOF = b := by
    rw [hbdef]
    exact List.dropWhile_cons_of_neg (by decide)
  have hlenb : b.length = 6 + P.length := by
    rw [hbdef]
    simp
    omega
  have g1 : b.getD 1 0 = l1 := by rw [hbdef]; simp
  have g2 : b.getD 2 0 = l2 := by rw [hbdef]; simp
  have g3 : b.getD 3 0 = ty := by rw [hbdef]; simp
  have g4 : b.getD 4 0 = fl := by rw [hbdef]; simp
  have g5 : b.getD 5 0 = cr := by rw [hbdef]; simp
  have hLval : b.getD 1 0 + 256 * b.getD 2 0 = P.length := by
    rw [g1, g2]
    exact hL
  have h6 : ¬ b.length < 6 := by omega
  have hcrc : crc8 [b.getD 1 0, b.getD 2 0, b.getD 3 0, b.getD 4 0] =
      b.getD 5 0 := by
    rw [g1, g2, g3, g4, g5]
  have h3 : b.length < 6 + (b.getD 1 0 + 256 * b.getD 2 0) + 1 := by
    rw [hLval]
    omega
  exact extract_blocked hb h6 hcrc h3

theorem extract_corrupt (l1 l2 ty fl c : Nat) (P : List Nat)
    (hL : l1 + 256 * l2 = P.length)
    (hc : c ≠ crc8 (SOF :: l1 :: l2 :: ty :: fl ::
      crc8 [l1, l2, ty, fl] :: P)) :
    extract (SOF :: l1 :: l2 :: ty :: fl :: crc8 [l1, l2, ty, fl] ::
      (P ++ [c])) = ([], []) := by
  set cr := crc8 [l1, l2, ty, fl] with hcr
  set b := SOF :: l1 :: l2 :: ty :: fl :: cr :: (P ++ [c]) with hbdef
  have hb : b.dropWhile notSOF = b := by
    rw [hbdef]
    exact List.dropWhile_cons_of_neg (by decide)
  have hlenb : b.length = 6 + P.length + 1 := by
    rw [hbdef]
    simp
    omega
  have g1 : b.getD 1 0 = l1 := by rw [hbdef]; simp
  have g2 : b.getD 2 0 = l2 := by rw [hbdef]; simp
  have g3 : b.getD 3 0 = ty := by rw [hbdef]; simp
  have g4 : b.getD 4 0 = fl := by rw [hbdef]; simp
  have g5 : b.getD 5 0 = cr := by rw [hbdef]; simp
  have hLval : b.getD 1 0 + 256 * b.getD 2 0 = P.length := by
    rw [g1, g2]
    exact hL
  have h6 : ¬ b.length < 6 := by omega
  have hcrc : crc8 [b.getD 1 0, b.getD 2 0, b.getD 3 0, b.getD 4 0] =
      b.getD 5 0 := by
    rw [g1, g2, g3, g4, g5]
  have h3 : ¬ b.length < 6 + (b.getD 1 0 + 256 * b.getD 2 0) + 1 := by
    rw [hLval]
    omega
  have htake : b.take (6 + P.length) =
      SOF :: l1 :: l2 :: ty :: fl :: cr :: P := by
    rw [hbdef, take_six]
    rw [List.take_left' rfl]
  have hgfcs : b.getD (6 + P.length) 0 = c := by
    rw [hbdef, getD_six]
    rw [List.getD_append_right _ _ _ _ (le_refl _)]
    simp
  have h4 : ¬ crc8 (b.take (6 + (b.getD 1 0 + 256 * b.getD 2 0))) =
      b.getD (6 + (b.getD 1 0 + 256 * b.getD 2 0)) 0 := by
    rw [hLval, htake, hgfcs]
    exact fun he => hc he.symm
  have hrest : b.drop (6 + (b.getD 1 0 + 256 * b.getD 2 0) + 1) = [] := by
    rw [hLval]
    refine List.drop_eq_nil_of_le ?_
    omega
  rw [extract_discard hb h6 hcrc h3 h4, hrest]
  rfl

theorem parseFrame_serialize (f : Frame) (hf : f.Valid) :
    parseFrame f.serialize = some f := by
  obtain ⟨hty, hfl, hlen, hbytes⟩ := hf
  have hshape : f.serialize =
      SOF :: (f.payload.length % 256) :: (f.payload.length / 256 % 256) ::
        f.ftype :: f.flags ::
        crc8 [f.payload.length % 256, f.payload.length / 256 % 256,
          f.ftype, f.flags] ::
        (f.payload ++ [crc8 (SOF :: (f.payload.length % 256) ::
          (f.payload.length / 256 % 256) :: f.ftype :: f.flags ::
          crc8 [f.payload.length % 256, f.payload.length / 256 % 256,
            f.ftype, f.flags] :: f.payload)]) := by
    simp [Frame.serialize]
  rw [hshape]
  simp only [parseFrame]
  rw [if_pos]
  · have htake : (f.payload ++ [crc8 (SOF :: (f.payload.length % 256) ::
        (f.payload.length / 256 % 256) :: f.ftype :: f.flags ::
        crc8 [f.payload.length % 256, f.payload.length / 256 % 256,
          f.ftype, f.flags] :: f.payload)]).take
        (f.payload.length % 256 + 256 * (f.payload.length / 256 % 256)) =
        f.payload := by
      rw [show f.payload.length % 256 +
        256 * (f.payload.length / 256 % 256) = f.payload.length from
        by omega]
      exact List.take_left' rfl
    rw [htake, frame_eta]
  · refine ⟨by trivial, by trivial, ?_, ?_⟩
    · simp
      omega
    · rw [show f.payload.length % 256 +
        256 * (f.payload.length / 256 % 256) = f.payload.length from
        by omega]
      rw [List.take_left' rfl,
        List.getD_append_right _ _ _ _ (le_refl _)]
      simp

theorem serialize_parseFrame :
    ∀ (bs : List Nat) (g : Frame), (∀ x ∈ bs, x < 256) →
      parseFrame bs = some g → g.serialize = bs := by
  intro bs g hbytes h
  cases bs with
  | nil => simp [parseFrame] at h
  | cons m t1 =>
  cases t1 with
  | nil => simp [parseFrame] at h
  | cons l1 t2 =>
  cases t2 with
  | nil => simp [parseFrame] at h
  | cons l2 t3 =>
  cases t3 with
  | nil => simp [parseFrame] at h
  | cons ty t4 =>
  cases t4 with
  | nil => simp [parseFrame] at h
  | cons fl t5 =>
  cases t5 with
  | nil => simp [parseFrame] at h
  | cons cr rest =>
  simp only [parseFrame] at h
  split at h
  · rename_i hcond
    obtain ⟨hm, hcrc, hlen, hfcs⟩ := hcond
    have hg : g = ⟨ty, fl, rest.take (l1 + 256 * l2)⟩ :=
      (Option.some.injEq _ _).mp h.symm
    subst hg hm
    have hl1 : l1 < 256 := hbytes l1 (by simp)
    have hl2 : l2 < 256 := hbytes l2 (by simp)
    have hplen : (rest.take (l1 + 256 * l2)).length = l1 + 256 * l2 := by
      rw [List.length_take]
      omega
    have hdropped : rest.drop (l1 + 256 * l2) =
        [rest.getD (l1 + 256 * l2) 0] := by
      rw [List.drop_eq_getElem_cons (by omega),
        List.getD_eq_getElem rest 0 (by omega),
        List.drop_eq_nil_of_le (by omega)]
    have hrest : rest.take (l1 + 256 * l2) ++
        [rest.getD (l1 + 256 * l2) 0] = rest := by
      rw [← hdropped, List.take_append_drop]
    simp only [Frame.serialize]
    rw [hplen]
    rw [show (l1 + 256 * l2) % 256 = l1 from by omega]
    rw [show (l1 + 256 * l2) / 256 % 256 = l2 from by omega]
    rw [hcrc, hfcs]
    simp only [List.cons_append]
    rw [hrest]
  · exact absurd h (by simp)

theorem serialize_dropLast (f : Frame) :
    f.serialize.dropLast =
      SOF :: (f.payload.length % 256) :: (f.payload.length / 256 % 256) ::
        f.ftype :: f.flags ::
        crc8 [f.payload.length % 256, f.payload.length / 256 % 256,
          f.ftype, f.flags] :: f.payload := by
  simp only [Frame.serialize]
  exact List.dropLast_concat



set_option maxRecDepth 100000

/-- C1: chunk-invariance of the frame synchronizer — for any valid frame,
delivering its serialized bytes to `ZbossNcpProtocol.data_received` in a
single call and delivering the same bytes one byte per call both cause
exactly one frame to be handed upward, and the delivered frame is the
same frame in both runs. -/
theorem c1_chunk_invariance (f : Frame) (hf : f.Valid) :
    ((ZbossNcpProtocol.mk []).feed [f.serialize]).1 = [f] ∧
    ((ZbossNcpProtocol.mk []).feed
      (f.serialize.map fun b => [b])).1 = [f] := by
  constructor
  · rw [feed_eq_extract_join]
    simp [extract_serialize f hf]
  · rw [feed_eq_extract_join, join_map_singleton]
    simp [extract_serialize f hf]

/-- C1 witness: both delivery granularities applied to a concrete valid
frame. -/
theorem c1_chunk_invariance_witness :
    testFrame.Valid ∧
    ((ZbossNcpProtocol.mk []).feed [testFrame.serialize]).1 =
      [testFrame] ∧
    ((ZbossNcpProtocol.mk []).feed
      (testFrame.serialize.map fun b => [b])).1 = [testFrame] :=
  ⟨by decide, (c1_chunk_invariance testFrame (by decide)).1,
    (c1_chunk_invariance testFrame (by decide)).2⟩

/-- C2: garbage robustness — for every delivery sequence (any chunking)
whose bytes are a fully-discarded garbage prefix, one valid frame, and a
trailing garbage run that emits nothing, the synchronizer delivers
exactly that one frame and never emits a spurious frame; the garbage
does not desynchronize parsing of the valid frame. -/
theorem c2_garbage_robustness (f : Frame) (G T : List Nat)
    (chunks : List (List Nat)) (hf : f.Valid)
    (hG : extract G = ([], []))
    (hT : (extract T).1 = [])
    (hchunks : chunks.flatten = G ++ f.serialize ++ T) :
    ((ZbossNcpProtocol.mk []).feed chunks).1 = [f] := by
  rw [feed_eq_extract_join, hchunks]
  show (extract ((G ++ f.serialize) ++ T)).1 = [f]
  rw [List.append_assoc, extract_append G (f.serialize ++ T), hG]
  simp only [List.nil_append]
  rw [extract_serialize_append f hf T]
  simp [hT]

/-- C2 witness: a garbage prefix containing repeated stray `0xFE` marker
bytes and a truncated near-valid frame, the valid frame, and trailing
noise, delivered one byte per call. -/
theorem c2_garbage_robustness_witness :
    testFrame.Valid ∧
    extract ([0xFE, 0xFE, 0xFE] ++ testFrame.serialize.dropLast ++
      [0x00]) = ([], []) ∧
    (extract [0x00, 0x00, 0xE4, 0x4F, 0x51]).1 = [] ∧
    ((ZbossNcpProtocol.mk []).feed
      ((([0xFE, 0xFE, 0xFE] ++ testFrame.serialize.dropLast ++ [0x00]) ++
        testFrame.serialize ++ [0x00, 0x00, 0xE4, 0x4F, 0x51]).map
          fun b => [b])).1 = [testFrame] :=
  ⟨by decide, by decide, by decide,
    c2_garbage_robustness testFrame _ _ _ (by decide) (by decide)
      (by decide) (join_map_singleton _)⟩

/-- C3: truncation and corruption rejection — for every valid frame,
removing the final frame-check byte yields zero deliveries (the
synchronizer keeps waiting), and replacing it with any wrong byte also
yields zero deliveries (the candidate is silently discarded). -/
theorem c3_truncation_rejection (f : Frame) (c : Nat) (hf : f.Valid)
    (hc : c ≠ crc8 f.serialize.dropLast) :
    (extract (f.serialize.dropLast ++ [c])).1 = [] ∧
    (extract f.serialize.dropLast).1 = [] := by
  obtain ⟨hty, hfl, hlen, hbytes⟩ := hf
  rw [serialize_dropLast] at hc ⊢
  constructor
  · simp only [List.cons_append]
    rw [extract_corrupt _ _ _ _ _ _ (by omega) hc]
  · rw [extract_truncated _ _ _ _ _ (by omega)]

/-- C3 witness: the concrete frame with its frame-check byte replaced by
`0x00` (as in the corrupted-fcs test) and with it removed. -/
theorem c3_truncation_rejection_witness :
    testFrame.Valid ∧ (0 : Nat) ≠ crc8 testFrame.serialize.dropLast ∧
    (extract (testFrame.serialize.dropLast ++ [0])).1 = [] ∧
    (extract testFrame.serialize.dropLast).1 = [] :=
  ⟨by decide, by decide,
    (c3_truncation_rejection testFrame 0 (by decide) (by decide)).1,
    (c3_truncation_rejection testFrame 0 (by decide) (by decide)).2⟩

/-- C4: observer-failure isolation under multi-frame concatenation —
three identical valid frames delivered in a single `data_received` call
are all extracted, and the `frame_received` delivery loop invokes the
handler exactly three times, once per frame in order, for every handler,
including one that raises on every invocation. -/
theorem c4_observer_failure_isolation (f : Frame)
    (handler : Frame → Except String Unit) (hf : f.Valid) :
    ((ZbossNcpProtocol.mk []).data_received
      (f.serialize ++ f.serialize ++ f.serialize)).1 = [f, f, f] ∧
    frameReceivedLoop handler
      ((ZbossNcpProtocol.mk []).data_received
        (f.serialize ++ f.serialize ++ f.serialize)).1 = [f, f, f] := by
  have hx : ((ZbossNcpProtocol.mk []).data_received
      (f.serialize ++ f.serialize ++ f.serialize)).1 = [f, f, f] := by
    dsimp only [ZbossNcpProtocol.data_received]
    rw [List.nil_append, List.append_assoc,
      extract_serialize_append f hf, extract_serialize_append f hf,
      extract_serialize f hf]
  exact ⟨hx, by rw [hx, frameReceivedLoop_all]⟩

/-- C4 witness: the concrete frame three times, with the handler that
raises an error on every invocation (as in the test). -/
theorem c4_observer_failure_isolation_witness :
    testFrame.Valid ∧
    ((ZbossNcpProtocol.mk []).data_received
      (testFrame.serialize ++ testFrame.serialize ++
        testFrame.serialize)).1 = [testFrame, testFrame, testFrame] ∧
    frameReceivedLoop (fun _ => Except.error "An error")
      ((ZbossNcpProtocol.mk []).data_received
        (testFrame.serialize ++ testFrame.serialize ++
          testFrame.serialize)).1 = [testFrame, testFrame, testFrame] :=
  ⟨by decide,
    (c4_observer_failure_isolation testFrame
      (fun _ => Except.error "An error") (by decide)).1,
    (c4_observer_failure_isolation testFrame
      (fun _ => Except.error "An error") (by decide)).2⟩

/-- C5: round-trip law of the frame codec — parsing the serialization of
a validly constructed frame yields that frame back; feeding the
serialization to the synchronizer delivers that one frame; and
re-serializing any frame parsed from a byte string reproduces exactly
the original bytes. -/
theorem c5_round_trip (f : Frame) (bs : List Nat) (g : Frame)
    (hf : f.Valid) (hbytes : ∀ x ∈ bs, x < 256)
    (hparse : parseFrame bs = some g) :
    parseFrame f.serialize = some f ∧ (extract f.serialize).1 = [f] ∧
    g.serialize = bs :=
  ⟨parseFrame_serialize f hf, by rw [extract_serialize f hf],
    serialize_parseFrame bs g hbytes hparse⟩

/-- C5 witness: the concrete frame round-tripped both ways. -/
theorem c5_round_trip_witness :
    testFrame.Valid ∧ (∀ x ∈ testFrame.serialize, x < 256) ∧
    parseFrame testFrame.serialize = some testFrame ∧
    (extract testFrame.serialize).1 = [testFrame] ∧
    testFrame.serialize = testFrame.serialize :=
  ⟨by decide, by decide,
    (c5_round_trip testFrame testFrame.serialize testFrame (by decide)
      (by decide) (by decide)).1,
    (c5_round_trip testFrame testFrame.serialize testFrame (by decide)
      (by decide) (by decide)).2.1,
    (c5_round_trip testFrame testFrame.serialize testFrame (by decide)
      (by decide) (by decide)).2.2⟩

/-- C6: sequence-number discipline — for every starting counter state,
`ControllerApplication.get_sequence` returns (and stores) exactly
(previous + 1) mod 255, so the returned TSN lies in [0, 254] and the
value 255 is never returned. -/
theorem c6_sequence_discipline (s : Nat) :
    (get_sequence s).1 = (s + 1) % 255 ∧
    (get_sequence s).2 = (s + 1) % 255 ∧
    (get_sequence s).1 ≤ 254 ∧ (get_sequence s).1 ≠ 255 := by
  refine ⟨rfl, rfl, ?_, ?_⟩
  · show (s + 1) % 255 ≤ 254
    omega
  · show (s + 1) % 255 ≠ 255
    omega

/-- C6 witness: the counter wraps at 254 back to 0 and never yields
255. -/
theorem c6_sequence_discipline_witness :
    (get_sequence 254).1 = (254 + 1) % 255 ∧
    (get_sequence 254).2 = (254 + 1) % 255 ∧
    (get_sequence 254).1 ≤ 254 ∧ (get_sequence 254).1 ≠ 255 :=
  c6_sequence_discipline 254

/-- C7: connection-loss propagation — when the transport reports a
severed connection with a causing exception, the owner's
connection-lost callback is invoked exactly once with exactly that
exception, every still-pending request fails with a `ConnectionLost`
outcome, and no inbound frame is processed afterward. -/
theorem c7_connection_lost (exc : Nat) (m : Nrf) :
    (connection_lost exc m).2.2 = [exc] ∧
    (connection_lost exc m).2.1 =
      m.pending.map (fun tsn => (tsn, ReqOutcome.connectionLost exc)) ∧
    (∀ t ∈ m.pending,
      (t, ReqOutcome.connectionLost exc) ∈ (connection_lost exc m).2.1) ∧
    ∀ f : Frame, (((connection_lost exc m).1).frame_received f).2 = [] := by
  refine ⟨rfl, rfl, ?_, ?_⟩
  · intro t ht
    simp only [connection_lost, List.mem_map]
    exact ⟨t, ht, rfl⟩
  · intro f
    simp [connection_lost, Nrf.frame_received]

/-- C7 witness: a connection loss with three pending requests. -/
theorem c7_connection_lost_witness :
    (connection_lost 7 ⟨[1, 2, 3], false⟩).2.2 = [7] ∧
    (connection_lost 7 ⟨[1, 2, 3], false⟩).2.1 =
      ([1, 2, 3] : List Nat).map
        (fun tsn => (tsn, ReqOutcome.connectionLost 7)) ∧
    (∀ t ∈ ([1, 2, 3] : List Nat),
      (t, ReqOutcome.connectionLost 7) ∈
        (connection_lost 7 ⟨[1, 2, 3], false⟩).2.1) ∧
    ∀ f : Frame,
      (((connection_lost 7 ⟨[1, 2, 3], false⟩).1).frame_received f).2 =
        [] :=
  c7_connection_lost 7 ⟨[1, 2, 3], false⟩

/-- C8: permit retention across retries — whenever
`ControllerApplication.send_packet` runs connected, its permit-pool
event trace acquires the admission permit first, performs every send
attempt (the initial try and all retries) while holding it, and
releases it only at the very end: no release and no re-acquisition
occurs between attempts. -/
theorem c8_permit_retention (st : AppState) (attempts : Nat)
    (hconn : st.api = some ()) :
    ∃ mid, (send_packet st attempts).2.1 =
      SendEvent.acquirePermit :: (mid ++ [SendEvent.releasePermit]) ∧
    (∀ e ∈ mid, e ≠ SendEvent.releasePermit ∧
      e ≠ SendEvent.acquirePermit) ∧
    mid = (List.range attempts).map SendEvent.sendAttempt := by
  refine ⟨(List.range attempts).map SendEvent.sendAttempt, ?_, ?_, rfl⟩
  · simp [send_packet, hconn]
  · intro e he
    simp only [List.mem_map] at he
    obtain ⟨n, _, rfl⟩ := he
    exact ⟨by simp, by simp⟩

/-- C8 witness: a connected application sending with three attempts. -/
theorem c8_permit_retention_witness :
    (AppState.mk (some ())).api = some () ∧
    ∃ mid, (send_packet ⟨some ()⟩ 3).2.1 =
      SendEvent.acquirePermit :: (mid ++ [SendEvent.releasePermit]) ∧
    (∀ e ∈ mid, e ≠ SendEvent.releasePermit ∧
      e ≠ SendEvent.acquirePermit) ∧
    mid = (List.range 3).map SendEvent.sendAttempt :=
  ⟨rfl, c8_permit_retention ⟨some ()⟩ 3 rfl⟩

/-- C9: disconnected-send guard — if `send_packet` is called while the
application is disconnected (api handle `None`), it raises
`DeliveryError` with the disconnected message, produces no permit-pool
event (no permit acquired, nothing sent), and leaves the state
unchanged. -/
theorem c9_disconnected_send (st : AppState) (attempts : Nat)
    (h : st.api = none) :
    send_packet st attempts =
      (Except.error "Coordinator is disconnected, cannot send request",
        [], st) := by
  simp [send_packet, h]

/-- C9 witness: a disconnected application. -/
theorem c9_disconnected_send_witness :
    (AppState.mk none).api = none ∧
    send_packet ⟨none⟩ 2 =
      (Except.error "Coordinator is disconnected, cannot send request",
        [], ⟨none⟩) :=
  ⟨rfl, c9_disconnected_send ⟨none⟩ 2 rfl⟩

/-- C10: Bind/Unbind status reduction — for every non-zero response
StatusCode the returned status is StatusCode mod 0xFF (modulo 255, not
256); in particular a failure StatusCode of 0xFF (255) is returned as
0, indistinguishable from the SUCCESS status (0) returned when the
StatusCode is zero. -/
theorem c10_bind_unbind_status_reduction (s : Nat) (hs : s ≠ 0) :
    Bind_req_status s = s % 0xFF ∧ Unbind_req_status s = s % 0xFF ∧
    Bind_req_status 0xFF = 0 ∧ Unbind_req_status 0xFF = 0 ∧
    Bind_req_status 0 = 0 ∧ Unbind_req_status 0 = 0 :=
  ⟨by simp [Bind_req_status, hs], by simp [Unbind_req_status, hs],
    by decide, by decide, by decide, by decide⟩

/-- C10 witness: the failure StatusCode 0xFF collapses to 0. -/
theorem c10_bind_unbind_status_reduction_witness :
    (255 : Nat) ≠ 0 ∧
    (Bind_req_status 255 = 255 % 0xFF ∧
      Unbind_req_status 255 = 255 % 0xFF ∧
      Bind_req_status 0xFF = 0 ∧ Unbind_req_status 0xFF = 0 ∧
      Bind_req_status 0 = 0 ∧ Unbind_req_status 0 = 0) :=
  ⟨by decide, c10_bind_unbind_status_reduction 255 (by decide)⟩

end ZigpyZboss
